import Mathlib

/-!
Verification of the strudel.zedro orchestration core against its
natural-language specification.

The development shallowly embeds the TypeScript sources:
the Content Index (`server-file-manager.ts`, class `FileManager`),
the peer buffer scan (`neovim-manager.ts`, `scanNeovimBuffers` and
`connectToNeovim`), and the remote session controller
(`server-playwright-manager.ts`, class `PlaywrightManager`).
Pure data transformations become Lean functions; I/O effects that the
claims mention (disk writes, in-page script evaluations) are counted
explicitly; operations that can throw take the outcome of the throwing
step as an explicit `Except`/`Bool` argument so that every control path
of the source is represented.  JS `Map` objects become association
lists with the insertion-order semantics of `Map.prototype.set`.
Timestamps (`new Date()`) are modelled by an explicit `now : Nat`
argument threaded to every operation that stamps one.  String lengths
use characters where JS uses UTF-16 code units; the two agree on the
ASCII data handled here.
-/

namespace StrudelZedro

/-! ### JS string helpers

Small models of the JavaScript string operations the sources use.
`strIncludes` is `String.prototype.includes` (for non-empty needles),
`jsOrStr` is `a || b` on an optional string (the empty string is falsy),
`basename` is Node's `path.basename` for the slash-separated names that
arise here, and `extname` is Node's `path.extname` on a basename. -/

def strStartsWith (s pre : String) : Bool :=
  pre.toList.isPrefixOf s.toList

def strEndsWith (s suf : String) : Bool :=
  suf.toList.reverse.isPrefixOf s.toList.reverse

def listIsInfix (needle : List Char) : List Char → Bool
  | [] => needle.isEmpty
  | c :: t => needle.isPrefixOf (c :: t) || listIsInfix needle t

def strIncludes (s needle : String) : Bool :=
  listIsInfix needle.toList s.toList

def jsOrStr (a : Option String) (b : String) : String :=
  match a with
  | some s => if s = "" then b else s
  | none => b

def basename (s : String) : String :=
  String.mk ((s.toList.reverse.takeWhile (fun c => decide (c ≠ '/'))).reverse)

def strDrop (s : String) (n : Nat) : String :=
  String.mk (s.toList.drop n)

/-- `lines.join("\n")`. -/
def joinLines : List String → String
  | [] => ""
  | [x] => x
  | x :: t => x ++ "\n" ++ joinLines t

/-- A string that is empty or consists only of whitespace characters. -/
def isWhitespaceOnly (s : String) : Bool :=
  s.toList.all (fun c => decide (c = ' ' ∨ c = '\t' ∨ c = '\n' ∨ c = '\r'))

def extname (s : String) : String :=
  let rev := s.toList.reverse
  let afterDot := rev.takeWhile (fun c => decide (c ≠ '.'))
  if afterDot.length = rev.length then ""
  else if afterDot.length + 1 = rev.length then ""
  else "." ++ String.mk afterDot.reverse

def toLowerStr (s : String) : String :=
  String.mk (s.toList.map Char.toLower)

/-! ### JS `Map<string, V>` model

`mapSet` is `Map.prototype.set`: an existing key keeps its position and
gets the new value, a fresh key is appended.  `mapGet` is
`Map.prototype.get` (`none` for a missing key).  `mapIncr` is the
read-increment-set idiom `m.set(k, (m.get(k) || 0) + 1)`. -/

def mapSet {V : Type} (m : List (String × V)) (k : String) (v : V) :
    List (String × V) :=
  if m.any (fun p => decide (p.1 = k)) then
    m.map (fun p => if p.1 = k then (k, v) else p)
  else
    m ++ [(k, v)]

def mapGet {V : Type} : List (String × V) → String → Option V
  | [], _ => none
  | p :: t, k => if p.1 = k then some p.2 else mapGet t k

def mapIncr (m : List (String × Nat)) (k : String) : List (String × Nat) :=
  mapSet m k ((mapGet m k).getD 0 + 1)

theorem mapGet_append_of_not_mem {V : Type} (m : List (String × V)) (k : String) (v : V)
    (h : m.any (fun p => decide (p.1 = k)) = false) :
    mapGet (m ++ [(k, v)]) k = some v := by
  induction m with
  | nil => simp [mapGet]
  | cons p t ih =>
    simp only [List.any_cons, Bool.or_eq_false_iff, decide_eq_false_iff_not] at h
    simpa [mapGet, h.1] using ih (by simpa using h.2)

theorem mapGet_map_replace {V : Type} (m : List (String × V)) (k : String) (v : V)
    (h : m.any (fun p => decide (p.1 = k)) = true) :
    mapGet (m.map (fun p => if p.1 = k then (k, v) else p)) k = some v := by
  induction m with
  | nil => simp at h
  | cons p t ih =>
    by_cases hp : p.1 = k
    · simp [mapGet, hp]
    · simp only [List.any_cons, decide_eq_true_eq, hp, Bool.false_or, decide_False] at h
      simpa [mapGet, hp] using ih h

theorem mapGet_mapSet {V : Type} (m : List (String × V)) (k : String) (v : V) :
    mapGet (mapSet m k v) k = some v := by
  by_cases h : m.any (fun p => decide (p.1 = k)) = true
  · simpa [mapSet, h] using mapGet_map_replace m k v h
  · have h2 : m.any (fun p => decide (p.1 = k)) = false := by
      simp only [Bool.not_eq_true] at h
      exact h
    simpa [mapSet, h2] using mapGet_append_of_not_mem m k v h2

/-! ### Content Index: `server-file-manager.ts`, class `FileManager`

`FileInfo` mirrors the `FileInfo` interface (with `lastModified : Nat`
for the `Date`).  `FileManager` carries the `files` map and the working
directory; the `watchers` map and the file-watch setup are pure I/O
side channels that never touch `files`, so they are not part of the
state.  `pathRelative` models Node's `path.relative` for the inputs
this system produces: an absolute path under the working directory
becomes relative to it, the working directory itself becomes the empty
string, and an already-relative name passes through unchanged. -/

structure FileInfo where
  path : String
  name : String
  content : String
  lastModified : Nat
  bufnr : Option Nat
  isVirtual : Bool
deriving DecidableEq

structure FileManager where
  files : List (String × FileInfo)
  workingDir : String
deriving DecidableEq

/-- The regex `^[a-z]+:\/\/` of `isVirtualPath`: one or more lowercase
letters followed by `://` at the start. -/
def startsWithSchemePrefix (s : String) : Bool :=
  let letters := s.toList.takeWhile (fun c => decide ('a' ≤ c ∧ c ≤ 'z'))
  decide (0 < letters.length)
    && strStartsWith (String.mk (s.toList.drop letters.length)) "://"

/-- Model of `FileManager.isVirtualPath`: the disjunction of the source's
`virtualPatterns` regex tests, each an anchored prefix (or, for
`^\[.*\]$`, prefix-and-suffix) test. -/
def isVirtualPath (bufferPath : String) : Bool :=
  startsWithSchemePrefix bufferPath
  || strStartsWith bufferPath "miniicons://"
  || strStartsWith bufferPath "oil://"
  || strStartsWith bufferPath "telescope://"
  || strStartsWith bufferPath "fugitive://"
  || (strStartsWith bufferPath "[" && strEndsWith bufferPath "]")
  || strStartsWith bufferPath "term://"
  || strStartsWith bufferPath "scratch:"
  || strStartsWith bufferPath "NvimTree_"
  || strStartsWith bufferPath "NERD_tree"

def pathRelative (workingDir p : String) : String :=
  if p = workingDir then ""
  else if strStartsWith p (workingDir ++ "/") then strDrop p (workingDir.length + 1)
  else p

/-- Argument record of `addBufferFile` (its `bufferData` parameter). -/
structure BufferData where
  path : String
  name : String
  content : String
  bufnr : Nat
deriving DecidableEq

/-- The key `addBufferFile` stores under: `virtual:<name>:<bufnr>` for a
virtual buffer path, the workingDir-relative path otherwise. -/
def bufferKey (workingDir : String) (bd : BufferData) : String :=
  if isVirtualPath bd.path then
    "virtual:" ++ bd.name ++ ":" ++ toString bd.bufnr
  else
    pathRelative workingDir bd.path

/-- The `FileInfo` record `addBufferFile` builds. -/
def bufferFileInfo (workingDir : String) (bd : BufferData) (now : Nat) : FileInfo :=
  { path := bufferKey workingDir bd
    name := bd.name
    content := bd.content
    lastModified := now
    bufnr := some bd.bufnr
    isVirtual := isVirtualPath bd.path }

/-- Model of `FileManager.addBufferFile`.  The trailing `watchFile` call on
the non-virtual branch is file-watch I/O that does not touch `files`. -/
def addBufferFile (fm : FileManager) (bd : BufferData) (now : Nat) : FileManager :=
  { fm with
    files := mapSet fm.files (bufferKey fm.workingDir bd)
      (bufferFileInfo fm.workingDir bd now) }

/-- Result of `updateFileContent`: the new state, the returned boolean, and
the number of `Bun.write` calls issued (the filesystem-write spy of the
spec's round-trip property). -/
structure UpdateResult where
  fm : FileManager
  success : Bool
  diskWrites : Nat
deriving DecidableEq

/-- Model of `FileManager.updateFileContent`.  `diskWriteOk` is the outcome
of the `Bun.write` call on the non-virtual branch (`false` means it threw). -/
def updateFileContent (fm : FileManager) (filePath content : String) (now : Nat)
    (diskWriteOk : Bool) : UpdateResult :=
  match mapGet fm.files filePath with
  | none => ⟨fm, false, 0⟩
  | some file =>
    let nf := { file with content := content, lastModified := now }
    if file.isVirtual then
      ⟨{ fm with files := mapSet fm.files filePath nf }, true, 0⟩
    else if diskWriteOk then
      ⟨{ fm with files := mapSet fm.files filePath nf }, true, 1⟩
    else
      ⟨fm, false, 1⟩

def getFile (fm : FileManager) (filePath : String) : Option FileInfo :=
  mapGet fm.files filePath

def getFiles (fm : FileManager) : List FileInfo :=
  fm.files.map (·.2)

def getFileCount (fm : FileManager) : Nat :=
  fm.files.length

/-- Model of `FileManager.clear`. -/
def clearFiles (fm : FileManager) : FileManager :=
  { fm with files := [] }

structure FileStats where
  totalFiles : Nat
  realFiles : Nat
  virtualFiles : Nat
  totalSize : Nat
  averageSize : Nat
  extensions : List (String × Nat)
  lastUpdate : Option Nat
deriving DecidableEq

/-- JS `Math.round (a / b)` for naturals `a`, `b > 0` (exact arithmetic;
the doubles involved here are exact for the sizes in scope): the nearest
integer to `a / b`, ties rounding up. -/
def jsRound (a b : Nat) : Nat :=
  (2 * a + b) / (2 * b)

/-- Model of `FileManager.getStats`.  `Math.max(...)` over the (nonempty)
timestamp list is a left fold of `Nat.max` from 0. -/
def getStats (fm : FileManager) : FileStats :=
  let files := getFiles fm
  let realFiles := files.filter (fun f => !f.isVirtual)
  let virtualFiles := files.filter (fun f => f.isVirtual)
  let totalSize := files.foldl (fun sum f => sum + f.content.length) 0
  let extensions := files.foldl (fun m f => mapIncr m (toLowerStr (extname f.name))) []
  { totalFiles := files.length
    realFiles := realFiles.length
    virtualFiles := virtualFiles.length
    totalSize := totalSize
    averageSize := if 0 < files.length then jsRound totalSize files.length else 0
    extensions := extensions
    lastUpdate :=
      if 0 < files.length then some ((files.map (·.lastModified)).foldl max 0)
      else none }

/-! ### Filesystem scan: `scanLocalFiles` and `addFile`

The glob enumeration is external I/O: `found` is the list of paths the
iterator yielded (across both patterns, in order) before it either
completed or threw, and `iterThrows` records whether it threw after
yielding them.  Each item's `readResult` is the outcome of the
`Bun.file(...).text()` / `.stat()` pair inside `addFile`, whose own
`try`/`catch` swallows a failure. -/

structure FsFile where
  relPath : String
  readResult : Option (String × Nat)
deriving DecidableEq

/-- Model of `FileManager.addFile`: `readResult` is `some (content, mtime)`
when the reads succeed and `none` when one of them threw (the `catch`
branch leaves the index untouched). -/
def addFile (fm : FileManager) (it : FsFile) : FileManager :=
  match it.readResult with
  | none => fm
  | some (content, mtime) =>
    let fi : FileInfo :=
      { path := it.relPath
        name := basename it.relPath
        content := content
        lastModified := mtime
        bufnr := none
        isVirtual := false }
    { fm with files := mapSet fm.files it.relPath fi }

/-- The skip test in `scanLocalFiles`:
`excludeDirs.some(dir => file.includes(dir)) || file.startsWith(".")`
with the default `excludeDirs`. -/
def excludedLocalFile (relPath : String) : Bool :=
  (["node_modules", ".git", "build"].any (fun d => strIncludes relPath d))
  || strStartsWith relPath "."

/-- Model of `FileManager.scanLocalFiles`.  Note it never clears `files`:
entries accumulate over whatever the index already held.  The returned
boolean is whether the enumeration threw (propagating out of the scan). -/
def scanLocalFiles (fm : FileManager) (found : List FsFile) (iterThrows : Bool) :
    FileManager × Bool :=
  (found.foldl (fun m it => if excludedLocalFile it.relPath then m else addFile m it) fm,
   iterThrows)

/-! ### Peer buffer scan: `neovim-manager.ts`, `scanNeovimBuffers`

A buffer exposed by the peer is three awaited RPC reads (`buffer.name`,
`buffer.lines`, `buffer.loaded`); each field below is `some value` when
the read succeeds and `none` when it throws (the per-buffer `catch`
then skips that buffer).  The buffer-list read itself
(`this.neovim.client.buffers`) can also throw, before the index is
cleared; `buffersRes` is its outcome. -/

structure NvimBuffer where
  bufnr : Nat
  nameRes : Option String
  linesRes : Option (List String)
  loadedRes : Option Bool
deriving DecidableEq

/-- The inline skip test of `scanNeovimBuffers`:
`!name || name.startsWith("term://") || name === "" || name.includes("[No Name]")`
(for a string, `!name` and `name === ""` coincide). -/
def skipBufferName (n : String) : Bool :=
  n = "" || strStartsWith n "term://" || strIncludes n "[No Name]"

/-- One iteration of the buffer loop, threading the `bufferCount` counter.
The reads happen in source order: name and lines first, then the skip
test, then the loaded flag; any failed read skips the buffer. -/
def processNvimBuffer (now : Nat) (acc : FileManager × Nat) (b : NvimBuffer) :
    FileManager × Nat :=
  match b.nameRes, b.linesRes with
  | some name, some lines =>
    if skipBufferName name then acc
    else
      match b.loadedRes with
      | some true =>
        (addBufferFile acc.1
          ⟨name, basename name, joinLines lines, b.bufnr⟩ now,
         acc.2 + 1)
      | some false => acc
      | none => acc
  | _, _ => acc

/-- Outcome of a `scanNeovimBuffers` call: the index afterwards, whether
the call threw (the outer `catch` rethrows), and the `bufferCount` it
counted. -/
structure ScanOutcome where
  fm : FileManager
  threw : Bool
  count : Nat
deriving DecidableEq

/-- Model of `scanNeovimBuffers`.  Not connected: early return, nothing
changes.  Buffer-list read throws: rethrown before the index is touched.
Otherwise the index is cleared and the buffers are folded through
`processNvimBuffer`. -/
def scanNeovimBuffers (connected : Bool) (buffersRes : Option (List NvimBuffer))
    (fm : FileManager) (now : Nat) : ScanOutcome :=
  if !connected then ⟨fm, false, 0⟩
  else
    match buffersRes with
    | none => ⟨fm, true, 0⟩
    | some bufs =>
      let r := bufs.foldl (processNvimBuffer now) (clearFiles fm, 0)
      ⟨r.1, false, r.2⟩

/-- A buffer survives the scan when all three reads succeed, the name
passes the skip test, and the buffer is loaded.  (When the skip test
already rejects the name, the loaded read is never issued; the buffer is
skipped either way, so requiring `loadedRes = some true` only for
survivors is faithful.) -/
def keepBuffer (b : NvimBuffer) : Bool :=
  match b.nameRes, b.linesRes, b.loadedRes with
  | some n, some _, some l => !skipBufferName n && l
  | _, _, _ => false

/-- The `BufferData` a surviving buffer is upserted as. -/
def bufferEntryData (b : NvimBuffer) : BufferData :=
  { path := b.nameRes.getD ""
    name := basename (b.nameRes.getD "")
    content := joinLines (b.linesRes.getD [])
    bufnr := b.bufnr }

/-! ### Peer discovery: `neovim-manager.ts`, `findRunningNeovim` and the
candidate-socket list of `connectToNeovim` -/

structure ProcessInfo where
  pid : Nat
  name : String
  cmd : String
deriving DecidableEq

/-- The process filter of `findRunningNeovim`: name matches a vim-like
pattern and the command line is neither `--embed` nor `--headless`. -/
def neovimProcessFilter (p : ProcessInfo) : Bool :=
  (strIncludes p.name "nvim" || strIncludes p.name "neovim")
  && !strIncludes p.cmd "--embed"
  && !strIncludes p.cmd "--headless"

/-- Model of `findRunningNeovim`: each surviving process is paired with
`process.env.NVIM_LISTEN_ADDRESS || "/tmp/nvim-" + pid`. -/
def findRunningNeovim (processes : List ProcessInfo) (envAddr : Option String) :
    List (Nat × String) :=
  (processes.filter neovimProcessFilter).map
    (fun p => (p.pid, jsOrStr envAddr ("/tmp/nvim-" ++ toString p.pid)))

/-- `[...new Set(xs)]`: deduplication keeping the first occurrence of each
element, in order. -/
def dedupAux {α : Type} [DecidableEq α] (seen : List α) : List α → List α
  | [] => []
  | x :: xs => if x ∈ seen then dedupAux seen xs else x :: dedupAux (x :: seen) xs

def dedupFirst {α : Type} [DecidableEq α] (l : List α) : List α :=
  dedupAux [] l

/-- The default of the `preferredSockets` option of `connectToNeovim`. -/
def defaultPreferredSockets : List String :=
  ["/tmp/nvim-socket", "/tmp/nvim"]

/-- The raw `socketsToTry` array of `connectToNeovim` for one discovered
instance, after `.filter(Boolean)`: the preferred sockets, the instance
address, the two pid-derived paths, and the environment override; an
unset or empty environment variable contributes nothing. -/
def socketsToTry (preferredSockets : List String) (instanceAddr : String)
    (pid : Nat) (envAddr : Option String) : List String :=
  (preferredSockets ++
    [instanceAddr,
     "/tmp/nvim-" ++ toString pid,
     "/tmp/nvimsocket-" ++ toString pid,
     envAddr.getD ""]).filter (fun s => !(s = ""))

/-- The `uniqueSockets` list `connectToNeovim` probes for an instance found
by `findRunningNeovim` (whose address is the environment override when
truthy, else the pid-derived default). -/
def uniqueSockets (preferredSockets : List String) (envAddr : Option String)
    (pid : Nat) : List String :=
  dedupFirst
    (socketsToTry preferredSockets (jsOrStr envAddr ("/tmp/nvim-" ++ toString pid))
      pid envAddr)

/-- Modelled from the claim's words, for comparison with `uniqueSockets`:
the candidate order claim C9 asserts — explicitly supplied candidates,
then the fixed well-known address, then the environment override, then
the process-id-derived paths, then the temp-directory scan results —
deduplicated keeping the highest-priority occurrence. -/
def claimedCandidateOrder (explicitCandidates : List String)
    (envAddr : Option String) (pid : Nat) (tempScanResults : List String) :
    List String :=
  dedupFirst
    ((explicitCandidates ++ ["/tmp/nvim-socket"]
      ++ (match envAddr with | some s => [s] | none => [])
      ++ ["/tmp/nvim-" ++ toString pid, "/tmp/nvimsocket-" ++ toString pid]
      ++ tempScanResults).filter (fun s => !(s = "")))

/-! ### Remote session controller: `server-playwright-manager.ts`,
class `PlaywrightManager`

A live page is described by the capabilities its in-page evaluations
probe (`strudel-editor` element present, its `.editor` object
constructed, `setCode` / `evaluate` / `stop` callable, a global `hush`
function) together with the failure modes of the automation layer
(`evalThrows`: a `page.evaluate` call itself rejects; `stopInnerThrows`
and `sendInnerThrows`: the script body's own `try` catches a throw from
the probed API; `closeThrows`: `page.close()` rejects). -/

structure StrudelPage where
  hasStrudelElement : Bool
  hasEditorObj : Bool
  hasSetCode : Bool
  hasEvaluateFn : Bool
  hasEditorStop : Bool
  hasHush : Bool
  sendInnerThrows : Bool
  stopInnerThrows : Bool
  evalThrows : Bool
  closeThrows : Bool
deriving DecidableEq

/-- A browser or context handle; only its close behaviour matters. -/
structure Handle where
  closeThrows : Bool
deriving DecidableEq

/-- The fields of `PlaywrightManager`: the three optional handles and the
`isInitialized` flag. -/
structure PWState where
  browser : Option Handle
  context : Option Handle
  page : Option StrudelPage
  isInitialized : Bool
deriving DecidableEq

/-- A freshly constructed `PlaywrightManager`: no handles, not
initialized. -/
def pwFresh : PWState :=
  { browser := none, context := none, page := none, isInitialized := false }

/-- The script body `stopStrudel` evaluates in the page: component stop
method first, then the global `hush`, and `true` even when neither is
found; the body's own `catch` yields `false`. -/
def stopEvalBody (p : StrudelPage) : Bool :=
  if p.stopInnerThrows then false
  else if p.hasStrudelElement && p.hasEditorObj && p.hasEditorStop then true
  else if p.hasHush then true
  else true

/-- Model of `PlaywrightManager.stopStrudel`: `false` when not
initialized or without a page, `false` when the evaluation call itself
rejects, otherwise the script body's result. -/
def stopStrudel (st : PWState) : Bool :=
  if !st.isInitialized then false
  else
    match st.page with
    | none => false
    | some p => if p.evalThrows then false else stopEvalBody p

/-- `stopStrudel` assigns no field of the manager, so the state after a
call is the state before it; this pairs the returned boolean with that
unchanged state. -/
def stopStrudelRun (st : PWState) : Bool × PWState :=
  (stopStrudel st, st)

/-- The `/api/hush` handler of `server.ts` (`handleCurlAPI`): the
returned success boolean and the HTTP status it picks. -/
def handleHush (st : PWState) : Bool × Nat :=
  let success := stopStrudel st
  (success, if success then 200 else 500)

/-- The script body `sendCodeToStrudel` evaluates in the page: `false`
for each missing integration point, otherwise `setCode` (and optionally
`evaluate`) and `true`; the body's own `catch` yields `false`. -/
def sendEvalBody (p : StrudelPage) : Bool :=
  if p.sendInnerThrows then false
  else if !p.hasStrudelElement then false
  else if !p.hasEditorObj then false
  else if !p.hasSetCode then false
  else true

/-- Result of a delivery attempt: the returned boolean and the number of
`page.evaluate` calls issued (the call-count spy on the automation layer
from the spec's property). -/
structure SendOutcome where
  success : Bool
  evalCalls : Nat
deriving DecidableEq

/-- Model of `PlaywrightManager.sendCodeToStrudel`.  The code string is
passed to the page verbatim; its content does not influence the result. -/
def sendCodeToStrudel (st : PWState) (code : String) : SendOutcome :=
  let _ := code
  if !st.isInitialized then ⟨false, 0⟩
  else
    match st.page with
    | none => ⟨false, 0⟩
    | some p => if p.evalThrows then ⟨false, 1⟩ else ⟨sendEvalBody p, 1⟩

/-- The `/api/browser/send-code` handler of `server.ts`
(`handlePlaywrightAPI`): `if (!code)` rejects with no automation call
(for a string body this means exactly the empty string), otherwise the
delivery goes through `sendCodeToStrudel`. -/
def handleSendCode (st : PWState) (code : String) : SendOutcome :=
  if code = "" then ⟨false, 0⟩
  else sendCodeToStrudel st code

/-! ### Navigation with retry and `initialize` -/

/-- Outcome of `navigateWithRetry`: whether it returned normally,
how many `page.goto` attempts it made, the back-off waits it slept
between attempts, and the per-attempt `goto` timeout bounds. -/
structure NavResult where
  success : Bool
  attemptsMade : Nat
  backoffs : List Nat
  timeouts : List Nat
deriving DecidableEq

/-- The retry loop of `navigateWithRetry`, from attempt number `attempt`
with upper bound `maxA`: a successful `goto` returns; a failed final
attempt rethrows; otherwise the loop sleeps `500 * attempt` and retries.
`outcome i` is whether the `goto` of attempt `i` succeeds.  Each `goto`
carries its own 30000 ms timeout.  (When `maxA < attempt` the loop body
never runs and the function returns normally, as in the source.) -/
def navRetryFrom (outcome : Nat → Bool) (attempt maxA : Nat) : NavResult :=
  if h1 : maxA < attempt then ⟨true, 0, [], []⟩
  else if outcome attempt then ⟨true, 1, [], [30000]⟩
  else if h2 : attempt = maxA then ⟨false, 1, [], [30000]⟩
  else
    let r := navRetryFrom outcome (attempt + 1) maxA
    ⟨r.success, r.attemptsMade + 1, 500 * attempt :: r.backoffs, 30000 :: r.timeouts⟩
termination_by maxA - attempt
decreasing_by omega

/-- `navigateWithRetry` with its default bound of 4 attempts. -/
def navigateWithRetry (outcome : Nat → Bool) : NavResult :=
  navRetryFrom outcome 1 4

/-- Outcome of `PlaywrightManager.initialize`: the returned boolean, the
number of navigation attempts made, the back-off waits, and whether the
`catch` branch ran `cleanup`. -/
structure InitOutcome where
  success : Bool
  navAttempts : Nat
  navBackoffs : List Nat
  cleanupRan : Bool
deriving DecidableEq

/-- Model of `PlaywrightManager.initialize`: launch, then
`navigateWithRetry`, then `waitForStrudelReady`; any failure falls to the
`catch` branch, which runs `cleanup` and returns `false`.  `launchOk` and
`readyOk` are the outcomes of the launch/new-page steps and of the
readiness wait. -/
def initializeBrowser (launchOk : Bool) (outcome : Nat → Bool) (readyOk : Bool) :
    InitOutcome :=
  if !launchOk then ⟨false, 0, [], true⟩
  else
    let nav := navigateWithRetry outcome
    if !nav.success then ⟨false, nav.attemptsMade, nav.backoffs, true⟩
    else if !readyOk then ⟨false, nav.attemptsMade, nav.backoffs, true⟩
    else ⟨true, nav.attemptsMade, nav.backoffs, false⟩

/-! ### Cleanup -/

/-- Tail of `cleanup` from the browser close on: close the browser if
present, then reset `isInitialized`.  A throwing close aborts to the
`catch`, leaving the remaining statements unexecuted. -/
def cleanupBrowserStep (st : PWState) : PWState :=
  match st.browser with
  | some b =>
    if b.closeThrows then st
    else { st with browser := none, isInitialized := false }
  | none => { st with isInitialized := false }

/-- Tail of `cleanup` from the context close on. -/
def cleanupContextStep (st : PWState) : PWState :=
  match st.context with
  | some c =>
    if c.closeThrows then st
    else cleanupBrowserStep { st with context := none }
  | none => cleanupBrowserStep st

/-- Model of `PlaywrightManager.cleanup`: page close, context close,
browser close and the flag reset all sit in one `try` block; the first
close that throws jumps to the `catch` (which only logs), skipping
everything after it. -/
def cleanupPW (st : PWState) : PWState :=
  match st.page with
  | some p =>
    if p.closeThrows then st
    else cleanupContextStep { st with page := none }
  | none => cleanupContextStep st

/-! ### Index operations and interleaving

A refresh scan, as executed, is a sequence of Content Index operations:
one `clear` followed by one `upsert` per surviving buffer.  Between any
two of these operations the scan suspends on an awaited peer read
(`buffer.name`, `buffer.lines`, `buffer.loaded`), so under the
single-threaded cooperative scheduler two overlapping refresh calls can
interleave their operation sequences at any of these points.
`Interleaves xs ys zs` says `zs` is such an interleaving. -/

inductive IndexOp where
  | clearAll : IndexOp
  | upsert (key : String) (fi : FileInfo) : IndexOp
deriving DecidableEq

def applyOp (fm : FileManager) : IndexOp → FileManager
  | .clearAll => clearFiles fm
  | .upsert k fi => { fm with files := mapSet fm.files k fi }

def applyOps (fm : FileManager) (ops : List IndexOp) : FileManager :=
  ops.foldl applyOp fm

/-- The Content Index operations a peer scan of `bufs` performs, in
order, against a manager whose working directory is `wd`. -/
def scanOps (wd : String) (now : Nat) (bufs : List NvimBuffer) : List IndexOp :=
  IndexOp.clearAll ::
    (bufs.filter keepBuffer).map
      (fun b => IndexOp.upsert (bufferKey wd (bufferEntryData b))
        (bufferFileInfo wd (bufferEntryData b) now))

inductive Interleaves : List IndexOp → List IndexOp → List IndexOp → Prop where
  | nil : Interleaves [] [] []
  | left {xs ys zs : List IndexOp} (x : IndexOp) :
      Interleaves xs ys zs → Interleaves (x :: xs) ys (x :: zs)
  | right {xs ys zs : List IndexOp} (y : IndexOp) :
      Interleaves xs ys zs → Interleaves xs (y :: ys) (y :: zs)

/-! ### Helper lemmas -/

theorem addBufferFile_workingDir (fm : FileManager) (bd : BufferData) (now : Nat) :
    (addBufferFile fm bd now).workingDir = fm.workingDir := rfl

/-- One loop iteration of the buffer scan, restated through `keepBuffer`:
a surviving buffer is upserted and counted, anything else leaves the
accumulator alone. -/
theorem processNvimBuffer_eq (now : Nat) (acc : FileManager × Nat) (b : NvimBuffer) :
    processNvimBuffer now acc b =
      if keepBuffer b then
        (addBufferFile acc.1 (bufferEntryData b) now, acc.2 + 1)
      else acc := by
  rcases b with ⟨bufnr, nameRes, linesRes, loadedRes⟩
  cases nameRes with
  | none => rfl
  | some n =>
    cases linesRes with
    | none => rfl
    | some ls =>
      cases loadedRes with
      | none =>
        by_cases hs : skipBufferName n = true <;>
          simp [processNvimBuffer, keepBuffer, hs]
      | some l =>
        by_cases hs : skipBufferName n = true
        · simp [processNvimBuffer, keepBuffer, hs]
        · cases l <;>
            simp [processNvimBuffer, keepBuffer, hs, bufferEntryData]

/-- The buffer-scan fold equals a fold of `addBufferFile` over the
surviving buffers, with the counter advanced by their number. -/
theorem processFold_eq (now : Nat) (bufs : List NvimBuffer) :
    ∀ (fm : FileManager) (c : Nat),
      bufs.foldl (processNvimBuffer now) (fm, c) =
        ((bufs.filter keepBuffer).foldl
            (fun m b => addBufferFile m (bufferEntryData b) now) fm,
         c + (bufs.filter keepBuffer).length) := by
  induction bufs with
  | nil => intro fm c; simp
  | cons b t ih =>
    intro fm c
    by_cases hk : keepBuffer b = true
    · have hfil : List.filter keepBuffer (b :: t) = b :: List.filter keepBuffer t := by
        simp [List.filter_cons, hk]
      rw [List.foldl_cons, processNvimBuffer_eq, if_pos hk, hfil, ih]
      simp only [List.foldl_cons, List.length_cons, Prod.mk.injEq, true_and]
      omega
    · have hk2 : keepBuffer b = false := by
        simp only [Bool.not_eq_true] at hk; exact hk
      have hfil : List.filter keepBuffer (b :: t) = List.filter keepBuffer t := by
        simp [List.filter_cons, hk2]
      rw [List.foldl_cons, processNvimBuffer_eq, if_neg hk, hfil]
      exact ih fm c

/-- A fold of `addBufferFile` is the application of the corresponding
`upsert` operations, provided the working directory matches. -/
theorem foldl_addBufferFile_eq_applyOps (now : Nat) (bufs : List NvimBuffer) :
    ∀ (fm : FileManager), fm.workingDir = wd →
      bufs.foldl (fun m b => addBufferFile m (bufferEntryData b) now) fm =
        applyOps fm (bufs.map
          (fun b => IndexOp.upsert (bufferKey wd (bufferEntryData b))
            (bufferFileInfo wd (bufferEntryData b) now))) := by
  induction bufs with
  | nil => intro fm _; rfl
  | cons b t ih =>
    intro fm hwd
    simp only [List.foldl_cons, List.map_cons, applyOps, List.foldl_cons]
    have hstep : addBufferFile fm (bufferEntryData b) now =
        applyOp fm (IndexOp.upsert (bufferKey wd (bufferEntryData b))
          (bufferFileInfo wd (bufferEntryData b) now)) := by
      simp [addBufferFile, applyOp, hwd]
    rw [← hstep]
    exact ih (addBufferFile fm (bufferEntryData b) now)
      (by rw [addBufferFile_workingDir, hwd])

theorem dedupAux_sublist {α : Type} [DecidableEq α] (seen : List α) (l : List α) :
    (dedupAux seen l).Sublist l := by
  induction l generalizing seen with
  | nil => simp [dedupAux]
  | cons x xs ih =>
    by_cases hx : x ∈ seen
    · simp only [dedupAux, if_pos hx]
      exact (ih seen).cons x
    · simp only [dedupAux, if_neg hx]
      exact (ih (x :: seen)).cons₂ x

theorem mem_dedupAux {α : Type} [DecidableEq α] (seen : List α) (l : List α) (a : α) :
    a ∈ dedupAux seen l ↔ a ∈ l ∧ a ∉ seen := by
  induction l generalizing seen with
  | nil => simp [dedupAux]
  | cons x xs ih =>
    by_cases hx : x ∈ seen
    · simp only [dedupAux, if_pos hx, ih]
      constructor
      · rintro ⟨h1, h2⟩
        exact ⟨List.mem_cons_of_mem x h1, h2⟩
      · rintro ⟨h1, h2⟩
        rcases List.mem_cons.mp h1 with rfl | h1x
        · exact absurd hx h2
        · exact ⟨h1x, h2⟩
    · simp only [dedupAux, if_neg hx]
      constructor
      · intro h
        rcases List.mem_cons.mp h with rfl | h1
        · exact ⟨List.mem_cons_self a xs, hx⟩
        · obtain ⟨h2, h3⟩ := (ih (x :: seen)).mp h1
          exact ⟨List.mem_cons_of_mem x h2,
            fun hc => h3 (List.mem_cons_of_mem x hc)⟩
      · rintro ⟨h1, h2⟩
        rcases List.mem_cons.mp h1 with rfl | h1x
        · exact List.mem_cons_self a _
        · by_cases hax : a = x
          · exact hax ▸ List.mem_cons_self x _
          · exact List.mem_cons_of_mem x ((ih (x :: seen)).mpr
              ⟨h1x, fun hc => (List.mem_cons.mp hc).elim hax h2⟩)

theorem nodup_dedupAux {α : Type} [DecidableEq α] (seen : List α) (l : List α) :
    (dedupAux seen l).Nodup := by
  induction l generalizing seen with
  | nil => simp [dedupAux]
  | cons x xs ih =>
    by_cases hx : x ∈ seen
    · simp only [dedupAux, if_pos hx]; exact ih seen
    · simp only [dedupAux, if_neg hx, List.nodup_cons]
      refine ⟨fun hc => ?_, ih (x :: seen)⟩
      exact ((mem_dedupAux (x :: seen) xs x).mp hc).2 (List.mem_cons_self x seen)

theorem navRetryFrom_hit (outcome : Nat → Bool) (attempt maxA : Nat)
    (hle : attempt ≤ maxA) (hs : outcome attempt = true) :
    navRetryFrom outcome attempt maxA = ⟨true, 1, [], [30000]⟩ := by
  rw [navRetryFrom.eq_def, dif_neg (by omega), hs]
  simp

theorem navRetryFrom_last_fail (outcome : Nat → Bool) (maxA : Nat)
    (hf : outcome maxA = false) :
    navRetryFrom outcome maxA maxA = ⟨false, 1, [], [30000]⟩ := by
  rw [navRetryFrom.eq_def, dif_neg (by omega), hf]
  simp

theorem navRetryFrom_step (outcome : Nat → Bool) (attempt maxA : Nat)
    (hlt : attempt < maxA) (hf : outcome attempt = false) :
    navRetryFrom outcome attempt maxA =
      ⟨(navRetryFrom outcome (attempt + 1) maxA).success,
       (navRetryFrom outcome (attempt + 1) maxA).attemptsMade + 1,
       500 * attempt :: (navRetryFrom outcome (attempt + 1) maxA).backoffs,
       30000 :: (navRetryFrom outcome (attempt + 1) maxA).timeouts⟩ := by
  conv_lhs => rw [navRetryFrom.eq_def]
  rw [dif_neg (by omega), hf, if_neg Bool.false_ne_true, dif_neg (by omega)]

theorem init_le_foldl_max (l : List Nat) : ∀ a : Nat, a ≤ l.foldl max a := by
  induction l with
  | nil => intro a; exact Nat.le_refl a
  | cons x xs ih =>
    intro a
    exact Nat.le_trans (le_max_left a x) (ih (max a x))

theorem le_foldl_max (l : List Nat) : ∀ (a t : Nat), t ∈ l → t ≤ l.foldl max a := by
  induction l with
  | nil => intro a t ht; simp at ht
  | cons x xs ih =>
    intro a t ht
    rcases List.mem_cons.mp ht with rfl | ht2
    · exact Nat.le_trans (le_max_right a t) (init_le_foldl_max xs (max a t))
    · exact ih (max a x) t ht2

theorem foldl_max_mem (l : List Nat) :
    ∀ a : Nat, l.foldl max a = a ∨ l.foldl max a ∈ l := by
  induction l with
  | nil => intro a; exact Or.inl rfl
  | cons x xs ih =>
    intro a
    rcases ih (max a x) with h | h
    · rcases le_total a x with hle | hle
      · right
        rw [List.foldl_cons, h, max_eq_right hle]
        exact List.mem_cons_self x xs
      · left
        rw [List.foldl_cons, h, max_eq_left hle]
    · exact Or.inr (List.mem_cons_of_mem x (by simpa using h))

theorem foldl_add_content (l : List FileInfo) :
    ∀ a : Nat, l.foldl (fun s f => s + f.content.length) a =
      a + (l.map (fun f => f.content.length)).sum := by
  induction l with
  | nil => intro a; simp
  | cons x xs ih =>
    intro a
    simp only [List.foldl_cons, List.map_cons, List.sum_cons, ih, Nat.add_assoc]

theorem jsRound_bounds (a b : Nat) (hb : 0 < b) :
    2 * jsRound a b * b ≤ 2 * a + b ∧ 2 * a ≤ 2 * jsRound a b * b + b := by
  have hb2 : 0 < 2 * b := by omega
  have h := Nat.div_add_mod (2 * a + b) (2 * b)
  have h2 : (2 * a + b) % (2 * b) < 2 * b := Nat.mod_lt _ hb2
  have hqb : 2 * jsRound a b * b = 2 * b * ((2 * a + b) / (2 * b)) := by
    unfold jsRound; ring
  rw [hqb]
  generalize hgen : 2 * b * ((2 * a + b) / (2 * b)) = p at h ⊢
  omega

/-- A peer scan that obtains its buffer list computes exactly: clear the
index, fold the surviving buffers through `addBufferFile`, return no
throw and the survivor count. -/
theorem scanNeovimBuffers_ok (fm : FileManager) (now : Nat) (bufs : List NvimBuffer) :
    scanNeovimBuffers true (some bufs) fm now =
      ⟨(bufs.filter keepBuffer).foldl
          (fun m b => addBufferFile m (bufferEntryData b) now) (clearFiles fm),
       false, (bufs.filter keepBuffer).length⟩ := by
  show (⟨(bufs.foldl (processNvimBuffer now) (clearFiles fm, 0)).1, false,
         (bufs.foldl (processNvimBuffer now) (clearFiles fm, 0)).2⟩ : ScanOutcome) = _
  rw [processFold_eq]
  simp

/-! ### Claim theorems -/

/-- The end-to-end scenario A peer: buffers `a.strdl` (loaded, one line),
the empty-named buffer, and `term://x`, all loaded. -/
def scenarioBufs : List NvimBuffer :=
  [⟨1, some "a.strdl", some ["x"], some true⟩,
   ⟨2, some "", some [], some true⟩,
   ⟨3, some "term://x", some [], some true⟩]

/-- C6: the post-attach buffer scan clears the Content Index first and then
upserts exactly the surviving buffers — those whose name is nonempty, not a
`term://` stream, not the `[No Name]` placeholder, and whose buffer is
loaded; in particular the scenario peer with buffers `a.strdl` (loaded),
`""` (loaded) and `term://x` (loaded) yields an index holding exactly the
one entry `a.strdl`. -/
theorem buffer_scan_exact_mirror :
    (∀ (fm : FileManager) (now : Nat) (bufs : List NvimBuffer),
      (scanNeovimBuffers true (some bufs) fm now).fm =
        (bufs.filter keepBuffer).foldl
          (fun m b => addBufferFile m (bufferEntryData b) now) (clearFiles fm)
      ∧ (scanNeovimBuffers true (some bufs) fm now).count =
          (bufs.filter keepBuffer).length)
    ∧ (scanNeovimBuffers true (some scenarioBufs) ⟨[], "/work"⟩ 0).fm.files =
        [("a.strdl", ⟨"a.strdl", "a.strdl", "x", 0, some 1, false⟩)] := by
  constructor
  · intro fm now bufs
    rw [scanNeovimBuffers_ok]
    exact ⟨rfl, rfl⟩
  · decide

/-- A Content Index with one pre-existing entry, for the C2 counterexample. -/
def c2Prior : FileManager :=
  ⟨[("old.strdl", ⟨"old.strdl", "old.strdl", "z", 0, none, false⟩)], "/work"⟩

/-- C2 counterexample: a filesystem scan that throws mid-enumeration after
yielding one new file leaves the index holding the old entry AND the new
entry — neither fully its prior state nor fully replaced, and the partial
result is not discarded.  (`scanLocalFiles` never clears the index.) -/
theorem fs_scan_midway_mix_cex :
    (scanLocalFiles c2Prior [⟨"new.strdl", some ("y", 5)⟩] true).2 = true
    ∧ (scanLocalFiles c2Prior [⟨"new.strdl", some ("y", 5)⟩] true).1.files ≠ c2Prior.files
    ∧ mapGet (scanLocalFiles c2Prior [⟨"new.strdl", some ("y", 5)⟩] true).1.files "old.strdl" =
        some ⟨"old.strdl", "old.strdl", "z", 0, none, false⟩
    ∧ mapGet (scanLocalFiles c2Prior [⟨"new.strdl", some ("y", 5)⟩] true).1.files "new.strdl" ≠ none
    ∧ mapGet c2Prior.files "new.strdl" = none := by decide

/-- C2 (amended): a PEER scan that raises leaves the Content Index fully in
its prior state (the only escaping failure point, fetching the buffer list,
precedes the clear, and per-buffer failures are caught and merely skip that
buffer), and a completed peer scan replaces the index with a result
independent of the prior entries.  The FILESYSTEM scan however does not
clear the index and accumulates entries, so a filesystem scan that raises
mid-enumeration can leave prior entries mixed with newly added ones. -/
theorem scan_failure_atomicity :
    (∀ (fm : FileManager) (now : Nat),
      scanNeovimBuffers true none fm now = ⟨fm, true, 0⟩)
    ∧ (∀ (fm1 fm2 : FileManager) (now : Nat) (bufs : List NvimBuffer),
        fm1.workingDir = fm2.workingDir →
        (scanNeovimBuffers true (some bufs) fm1 now).fm =
          (scanNeovimBuffers true (some bufs) fm2 now).fm) := by
  constructor
  · intro fm now
    rfl
  · intro fm1 fm2 now bufs hwd
    rw [scanNeovimBuffers_ok, scanNeovimBuffers_ok]
    have hcl : clearFiles fm1 = clearFiles fm2 := by
      cases fm1
      cases fm2
      simp only [clearFiles] at hwd ⊢
      simp [hwd]
    rw [hcl]

theorem scan_failure_atomicity_witness :
    scanNeovimBuffers true none c2Prior 3 = ⟨c2Prior, true, 0⟩
    ∧ (scanNeovimBuffers true (some scenarioBufs) c2Prior 0).fm =
        (scanNeovimBuffers true (some scenarioBufs) ⟨[], "/work"⟩ 0).fm :=
  ⟨scan_failure_atomicity.1 c2Prior 3,
   scan_failure_atomicity.2 c2Prior ⟨[], "/work"⟩ 0 scenarioBufs (by decide)⟩

/-- A two-entry index (one real entry of size 3 stamped 4, one virtual
entry of size 4 stamped 9) for the C10 witness. -/
def statsFmEx : FileManager :=
  ⟨[("a.strdl", ⟨"a.strdl", "a.strdl", "abc", 4, none, false⟩),
    ("virtual:v:2", ⟨"virtual:v:2", "v", "defg", 9, some 2, true⟩)], "/work"⟩

/-- C10: `getStats` on an empty index returns `averageSize = 0` and
`lastUpdate = none` (the guarded branch, no division); on a nonempty index
`averageSize` is the integer nearest to totalSize divided by the entry
count (within half: `2*avg*n` is within `n` of `2*total`), and
`lastUpdate` is the maximum `lastModified` across the entries. -/
theorem stats_empty_guard_and_aggregates :
    (∀ fm : FileManager, getFiles fm = [] →
      (getStats fm).averageSize = 0 ∧ (getStats fm).lastUpdate = none)
    ∧ (∀ fm : FileManager, getFiles fm ≠ [] →
        2 * (getStats fm).averageSize * (getFiles fm).length ≤
            2 * ((getFiles fm).map (fun f => f.content.length)).sum + (getFiles fm).length
        ∧ 2 * ((getFiles fm).map (fun f => f.content.length)).sum ≤
            2 * (getStats fm).averageSize * (getFiles fm).length + (getFiles fm).length
        ∧ ∃ m, (getStats fm).lastUpdate = some m
            ∧ m ∈ (getFiles fm).map (fun f => f.lastModified)
            ∧ ∀ t ∈ (getFiles fm).map (fun f => f.lastModified), t ≤ m) := by
  constructor
  · intro fm h
    simp [getStats, h]
  · intro fm h
    have hlen : 0 < (getFiles fm).length := List.length_pos.mpr h
    have havg : (getStats fm).averageSize =
        jsRound ((getFiles fm).foldl (fun s f => s + f.content.length) 0)
          (getFiles fm).length := by
      simp [getStats, hlen]
    have htot : (getFiles fm).foldl (fun s f => s + f.content.length) 0 =
        ((getFiles fm).map (fun f => f.content.length)).sum := by
      simpa using foldl_add_content (getFiles fm) 0
    rcases jsRound_bounds (((getFiles fm).map (fun f => f.content.length)).sum)
        (getFiles fm).length hlen with ⟨hb1, hb2⟩
    refine ⟨?_, ?_, ?_⟩
    · rw [havg, htot]
      exact hb1
    · rw [havg, htot]
      exact hb2
    · have hlu : (getStats fm).lastUpdate =
          some (((getFiles fm).map (fun f => f.lastModified)).foldl max 0) := by
        simp [getStats, hlen]
      refine ⟨((getFiles fm).map (fun f => f.lastModified)).foldl max 0, hlu, ?_, ?_⟩
      · have hne : (getFiles fm).map (fun f => f.lastModified) ≠ [] := by
          simpa using h
        rcases foldl_max_mem ((getFiles fm).map (fun f => f.lastModified)) 0 with h0 | hm
        · rcases List.exists_mem_of_ne_nil _ hne with ⟨t, ht⟩
          have hle := le_foldl_max ((getFiles fm).map (fun f => f.lastModified)) 0 t ht
          rw [h0] at hle
          have ht0 : t = 0 := Nat.le_zero.mp hle
          rw [h0, ← ht0]
          exact ht
        · exact hm
      · intro t ht
        exact le_foldl_max _ 0 t ht

theorem stats_empty_guard_and_aggregates_witness :
    ∃ m, (getStats statsFmEx).lastUpdate = some m
      ∧ m ∈ (getFiles statsFmEx).map (fun f => f.lastModified)
      ∧ ∀ t ∈ (getFiles statsFmEx).map (fun f => f.lastModified), t ≤ m :=
  (stats_empty_guard_and_aggregates.2 statsFmEx (by decide)).2.2

/-- The in-place content-and-timestamp update `updateFileContent` applies
to the found entry. -/
def persistedEntry (fi : FileInfo) (newContent : String) (now2 : Nat) : FileInfo :=
  { fi with content := newContent, lastModified := now2 }

/-- `updateFileContent` on a key that is present: the virtual branch
touches only memory, the addressable branch issues one disk write whose
outcome decides success. -/
theorem updateFileContent_found (fm : FileManager) (k newContent : String)
    (now2 : Nat) (diskOk : Bool) (fi : FileInfo)
    (hget : mapGet fm.files k = some fi) :
    updateFileContent fm k newContent now2 diskOk =
      if fi.isVirtual then
        ⟨{ fm with files := mapSet fm.files k (persistedEntry fi newContent now2) },
         true, 0⟩
      else if diskOk then
        ⟨{ fm with files := mapSet fm.files k (persistedEntry fi newContent now2) },
         true, 1⟩
      else ⟨fm, false, 1⟩ := by
  simp only [updateFileContent, hget, persistedEntry]

/-- An empty index with working directory `/work`. -/
def fmWork : FileManager := ⟨[], "/work"⟩

/-- C7: after upserting an entry, persisting new content at its key
succeeds for both entry kinds, leaves `get(key).content` equal to the new
content and `get(key).lastModified` equal to the persist time; the
non-addressable (virtual) entry is persisted with zero disk writes, the
addressable entry with exactly one (whose success `diskOk` assumes). -/
theorem persist_roundtrip (fm : FileManager) (bd : BufferData) (now now2 : Nat)
    (newContent : String) (diskOk : Bool)
    (hok : isVirtualPath bd.path = true ∨ diskOk = true) :
    (updateFileContent (addBufferFile fm bd now) (bufferKey fm.workingDir bd)
        newContent now2 diskOk).success = true
    ∧ (updateFileContent (addBufferFile fm bd now) (bufferKey fm.workingDir bd)
        newContent now2 diskOk).diskWrites =
        (if isVirtualPath bd.path then 0 else 1)
    ∧ (getFile (updateFileContent (addBufferFile fm bd now)
          (bufferKey fm.workingDir bd) newContent now2 diskOk).fm
        (bufferKey fm.workingDir bd)).map (fun f => f.content) = some newContent
    ∧ (getFile (updateFileContent (addBufferFile fm bd now)
          (bufferKey fm.workingDir bd) newContent now2 diskOk).fm
        (bufferKey fm.workingDir bd)).map (fun f => f.lastModified) = some now2 := by
  have hget : mapGet (addBufferFile fm bd now).files (bufferKey fm.workingDir bd) =
      some (bufferFileInfo fm.workingDir bd now) :=
    mapGet_mapSet fm.files (bufferKey fm.workingDir bd)
      (bufferFileInfo fm.workingDir bd now)
  rw [updateFileContent_found _ _ _ _ _ _ hget]
  have hvf : (bufferFileInfo fm.workingDir bd now).isVirtual = isVirtualPath bd.path := rfl
  by_cases hv : isVirtualPath bd.path = true
  · rw [if_pos (hvf.trans hv), if_pos hv]
    refine ⟨rfl, rfl, ?_, ?_⟩
    · simp [getFile, mapGet_mapSet, persistedEntry]
    · simp [getFile, mapGet_mapSet, persistedEntry]
  · have hv2 : isVirtualPath bd.path = false := by
      simp only [Bool.not_eq_true] at hv
      exact hv
    have hdisk : diskOk = true := hok.resolve_left hv
    rw [if_neg (by rw [hvf, hv2]; exact Bool.false_ne_true), if_pos hdisk,
      if_neg (by rw [hv2]; exact Bool.false_ne_true)]
    refine ⟨rfl, rfl, ?_, ?_⟩
    · simp [getFile, mapGet_mapSet, persistedEntry]
    · simp [getFile, mapGet_mapSet, persistedEntry]

/-- A virtual buffer (scheme-prefixed path), for the C7 witness. -/
def virtBufEx : BufferData := ⟨"oil://scratch", "scratch", "", 7⟩

theorem persist_roundtrip_witness :
    (updateFileContent (addBufferFile fmWork virtBufEx 1)
        (bufferKey fmWork.workingDir virtBufEx) "c4" 2 false).success = true
    ∧ (updateFileContent (addBufferFile fmWork virtBufEx 1)
        (bufferKey fmWork.workingDir virtBufEx) "c4" 2 false).diskWrites =
        (if isVirtualPath virtBufEx.path then 0 else 1)
    ∧ (getFile (updateFileContent (addBufferFile fmWork virtBufEx 1)
          (bufferKey fmWork.workingDir virtBufEx) "c4" 2 false).fm
        (bufferKey fmWork.workingDir virtBufEx)).map (fun f => f.content) = some "c4"
    ∧ (getFile (updateFileContent (addBufferFile fmWork virtBufEx 1)
          (bufferKey fmWork.workingDir virtBufEx) "c4" 2 false).fm
        (bufferKey fmWork.workingDir virtBufEx)).map (fun f => f.lastModified) = some 2 :=
  persist_roundtrip fmWork virtBufEx 1 2 "c4" false (Or.inl (by decide))

/-- C3 counterexample: on a never-initialized controller `stopStrudel`
returns false — not success — and the `/api/hush` route reports the
failure with a 500. -/
theorem stop_uninitialized_cex :
    stopStrudel pwFresh = false ∧ handleHush pwFresh = (false, 500) := by decide

/-- C3 (amended): `stopStrudel` returns FALSE when the controller was never
initialized (the HTTP layer maps that to a failure response); on an
initialized controller whose page evaluation does not throw it returns
true — even when the page exposes neither a component-level stop method
nor a global hush, since the script body returns true when nothing is
found — and, as it mutates no controller state, a second consecutive call
returns true as well. -/
theorem stop_initialized_idempotent (st : PWState) (p : StrudelPage)
    (hinit : st.isInitialized = true) (hpage : st.page = some p)
    (hev : p.evalThrows = false) (hinner : p.stopInnerThrows = false) :
    stopStrudel st = true
    ∧ (stopStrudelRun st).2 = st
    ∧ (stopStrudelRun ((stopStrudelRun st).2)).1 = true
    ∧ stopStrudel pwFresh = false := by
  have h1 : stopStrudel st = true := by
    simp [stopStrudel, hinit, hpage, hev, stopEvalBody, hinner]
  exact ⟨h1, rfl, h1, by decide⟩

/-- A live page that exposes neither a component stop method nor a global
hush and has no failure modes. -/
def pageNoStop : StrudelPage :=
  { hasStrudelElement := true, hasEditorObj := true, hasSetCode := true,
    hasEvaluateFn := false, hasEditorStop := false, hasHush := false,
    sendInnerThrows := false, stopInnerThrows := false,
    evalThrows := false, closeThrows := false }

/-- An initialized controller over `pageNoStop`. -/
def pwReadyNoStop : PWState :=
  { browser := some ⟨false⟩, context := some ⟨false⟩,
    page := some pageNoStop, isInitialized := true }

theorem stop_initialized_idempotent_witness :
    stopStrudel pwReadyNoStop = true
    ∧ (stopStrudelRun pwReadyNoStop).2 = pwReadyNoStop
    ∧ (stopStrudelRun ((stopStrudelRun pwReadyNoStop).2)).1 = true
    ∧ stopStrudel pwFresh = false :=
  stop_initialized_idempotent pwReadyNoStop pageNoStop (by decide) (by decide)
    (by decide) (by decide)

/-- A fully capable page: element, editor object and `setCode` present, no
failure modes. -/
def pageFull : StrudelPage :=
  { hasStrudelElement := true, hasEditorObj := true, hasSetCode := true,
    hasEvaluateFn := true, hasEditorStop := true, hasHush := true,
    sendInnerThrows := false, stopInnerThrows := false,
    evalThrows := false, closeThrows := false }

/-- An initialized controller over `pageFull`. -/
def pwReady : PWState :=
  { browser := some ⟨false⟩, context := some ⟨false⟩,
    page := some pageFull, isInitialized := true }

/-- C4 counterexample: the whitespace-only string of three spaces passes
the `!code` check, so delivery issues one automation call against the
remote page and returns true — not false with zero calls. -/
theorem deliver_whitespace_cex :
    isWhitespaceOnly "   " = true
    ∧ handleSendCode pwReady "   " = ⟨true, 1⟩ := by decide

/-- C4 (amended): only the EMPTY code string is rejected — returning false
with zero automation calls; any nonempty code string, whitespace-only
included, is forwarded: exactly one `page.evaluate` automation call is
issued and the handler returns the script body's result. -/
theorem deliver_empty_guard :
    (∀ st : PWState, handleSendCode st "" = ⟨false, 0⟩)
    ∧ (∀ (st : PWState) (p : StrudelPage) (code : String), code ≠ "" →
        st.isInitialized = true → st.page = some p → p.evalThrows = false →
        handleSendCode st code = ⟨sendEvalBody p, 1⟩) := by
  constructor
  · intro st
    rfl
  · intro st p code hc hinit hpage hev
    simp [handleSendCode, hc, sendCodeToStrudel, hinit, hpage, hev]

theorem deliver_empty_guard_witness :
    handleSendCode pwReady "   " = ⟨sendEvalBody pageFull, 1⟩ :=
  deliver_empty_guard.2 pwReady pageFull "   " (by decide) (by decide) (by decide)
    (by decide)

/-- `navigateWithRetry` when the first `k - 1` attempts fail and attempt
`k ≤ 4` succeeds: it returns normally after exactly `k` attempts, having
slept the linear back-offs `500·1, …, 500·(k-1)`, each attempt carrying
its own 30000 ms timeout. -/
theorem navigateWithRetry_succ_at (outcome : Nat → Bool) (k : Nat)
    (hk1 : 1 ≤ k) (hk4 : k ≤ 4)
    (hfail : ∀ i, 1 ≤ i → i < k → outcome i = false)
    (hsucc : outcome k = true) :
    navigateWithRetry outcome =
      ⟨true, k, (List.range (k - 1)).map (fun i => 500 * (i + 1)),
       List.replicate k 30000⟩ := by
  interval_cases k
  · unfold navigateWithRetry
    rw [navRetryFrom_hit outcome 1 4 (by omega) hsucc]
    decide
  · unfold navigateWithRetry
    rw [navRetryFrom_step outcome 1 4 (by omega) (hfail 1 (by omega) (by omega)),
      navRetryFrom_hit outcome 2 4 (by omega) hsucc]
    decide
  · unfold navigateWithRetry
    rw [navRetryFrom_step outcome 1 4 (by omega) (hfail 1 (by omega) (by omega)),
      navRetryFrom_step outcome 2 4 (by omega) (hfail 2 (by omega) (by omega)),
      navRetryFrom_hit outcome 3 4 (by omega) hsucc]
    decide
  · unfold navigateWithRetry
    rw [navRetryFrom_step outcome 1 4 (by omega) (hfail 1 (by omega) (by omega)),
      navRetryFrom_step outcome 2 4 (by omega) (hfail 2 (by omega) (by omega)),
      navRetryFrom_step outcome 3 4 (by omega) (hfail 3 (by omega) (by omega)),
      navRetryFrom_hit outcome 4 4 (by omega) hsucc]
    decide

/-- `navigateWithRetry` when all four attempts fail: the final attempt's
failure propagates after exactly 4 attempts and 3 back-off sleeps. -/
theorem navigateWithRetry_all_fail (g : Nat → Bool)
    (hf : ∀ i, 1 ≤ i → i ≤ 4 → g i = false) :
    navigateWithRetry g = ⟨false, 4, [500, 1000, 1500], List.replicate 4 30000⟩ := by
  unfold navigateWithRetry
  rw [navRetryFrom_step g 1 4 (by omega) (hf 1 (by omega) (by omega)),
    navRetryFrom_step g 2 4 (by omega) (hf 2 (by omega) (by omega)),
    navRetryFrom_step g 3 4 (by omega) (hf 3 (by omega) (by omega)),
    navRetryFrom_last_fail g 4 (hf 4 (by omega) (by omega))]
  decide

/-- `initialize` with successful launch and readiness steps reduces to the
navigation result. -/
theorem initializeBrowser_nav (outcome : Nat → Bool) :
    initializeBrowser true outcome true =
      (if (navigateWithRetry outcome).success then
        (⟨true, (navigateWithRetry outcome).attemptsMade,
          (navigateWithRetry outcome).backoffs, false⟩ : InitOutcome)
      else
        ⟨false, (navigateWithRetry outcome).attemptsMade,
          (navigateWithRetry outcome).backoffs, true⟩) := by
  by_cases h : (navigateWithRetry outcome).success = true
  · simp [initializeBrowser, h]
  · have h2 : (navigateWithRetry outcome).success = false := by
      simp only [Bool.not_eq_true] at h
      exact h
    simp [initializeBrowser, h2]

/-- C5: navigation attempts the fixed target URL up to 4 times with linear
back-off `500·attempt` between attempts, each attempt bounded by its own
30000 ms timeout; when the first `k - 1` attempts fail and attempt
`k ≤ 4` succeeds (launch and readiness succeeding), `initialize` returns
true having made exactly `k` navigation attempts; when all 4 attempts
fail, the final failure propagates: `initialize` returns false and runs
cleanup. -/
theorem navigate_retry_linear_backoff (outcome : Nat → Bool) (k : Nat)
    (hk1 : 1 ≤ k) (hk4 : k ≤ 4)
    (hfail : ∀ i, 1 ≤ i → i < k → outcome i = false)
    (hsucc : outcome k = true) :
    (initializeBrowser true outcome true).success = true
    ∧ (initializeBrowser true outcome true).navAttempts = k
    ∧ (initializeBrowser true outcome true).navBackoffs =
        (List.range (k - 1)).map (fun i => 500 * (i + 1))
    ∧ (navigateWithRetry outcome).timeouts = List.replicate k 30000
    ∧ (∀ g : Nat → Bool, (∀ i, 1 ≤ i → i ≤ 4 → g i = false) →
        (initializeBrowser true g true).success = false
        ∧ (initializeBrowser true g true).cleanupRan = true) := by
  have hnav := navigateWithRetry_succ_at outcome k hk1 hk4 hfail hsucc
  rw [initializeBrowser_nav, hnav]
  refine ⟨by simp, by simp, by simp, by simp, ?_⟩
  intro g hg
  rw [initializeBrowser_nav, navigateWithRetry_all_fail g hg]
  exact ⟨by simp, by simp⟩

/-- A navigation stub that fails on attempts 1 and 2 and succeeds from
attempt 3 on (the end-to-end scenario B stub). -/
def navStubB : Nat → Bool
  | 0 => false
  | 1 => false
  | 2 => false
  | _ => true

theorem navigate_retry_linear_backoff_witness :
    (initializeBrowser true navStubB true).success = true
    ∧ (initializeBrowser true navStubB true).navAttempts = 3
    ∧ (initializeBrowser true navStubB true).navBackoffs =
        (List.range (3 - 1)).map (fun i => 500 * (i + 1))
    ∧ (navigateWithRetry navStubB).timeouts = List.replicate 3 30000
    ∧ (∀ g : Nat → Bool, (∀ i, 1 ≤ i → i ≤ 4 → g i = false) →
        (initializeBrowser true g true).success = false
        ∧ (initializeBrowser true g true).cleanupRan = true) := by
  refine navigate_retry_linear_backoff navStubB 3 (by decide) (by decide) ?_ (by decide)
  intro i h1 h2
  interval_cases i <;> rfl

/-- `cleanup`'s browser-close tail when the browser handle (if any) closes
cleanly: the handle is released and the flag reset. -/
theorem cleanupBrowserStep_ok :
    ∀ st : PWState, (∀ b, st.browser = some b → b.closeThrows = false) →
      cleanupBrowserStep st = { st with browser := none, isInitialized := false } := by
  rintro ⟨b, c, p, init⟩ h
  cases b with
  | none => rfl
  | some bb =>
    show (if bb.closeThrows then (⟨some bb, c, p, init⟩ : PWState)
          else { browser := none, context := c, page := p, isInitialized := false }) = _
    rw [h bb rfl, if_neg Bool.false_ne_true]

/-- `cleanup`'s context-close tail when the context and browser handles (if
any) close cleanly. -/
theorem cleanupContextStep_ok :
    ∀ st : PWState, (∀ c, st.context = some c → c.closeThrows = false) →
      (∀ b, st.browser = some b → b.closeThrows = false) →
      cleanupContextStep st =
        { st with context := none, browser := none, isInitialized := false } := by
  rintro ⟨b, c, p, init⟩ h2 h3
  cases c with
  | none => exact cleanupBrowserStep_ok ⟨b, none, p, init⟩ h3
  | some cc =>
    show (if cc.closeThrows then (⟨b, some cc, p, init⟩ : PWState)
          else cleanupBrowserStep ⟨b, none, p, init⟩) = _
    rw [h2 cc rfl, if_neg Bool.false_ne_true]
    exact cleanupBrowserStep_ok ⟨b, none, p, init⟩ h3

/-- A page whose `close()` rejects but which is otherwise fully capable. -/
def pageCloseBoom : StrudelPage :=
  { pageFull with closeThrows := true }

/-- An initialized controller with all three handles live and a throwing
page close, for the C8 counterexample. -/
def pwCloseBoom : PWState :=
  { browser := some ⟨false⟩, context := some ⟨false⟩,
    page := some pageCloseBoom, isInitialized := true }

/-- C8 counterexample: when `page.close()` throws, `cleanup`'s single
guard skips the context close, the browser close AND the flag reset: the
state comes back unchanged — still initialized, context and browser
handles still live. -/
theorem cleanup_single_guard_cex :
    cleanupPW pwCloseBoom = pwCloseBoom
    ∧ (cleanupPW pwCloseBoom).isInitialized = true
    ∧ (cleanupPW pwCloseBoom).context ≠ none
    ∧ (cleanupPW pwCloseBoom).browser ≠ none := by decide

/-- C8 (amended): `cleanup` closes page, then context, then browser, then
resets the initialized flag, all inside ONE guard (not independently
guarded): when no live handle's close throws, every handle is released
and the flag ends false; a throwing page close is caught — `cleanup`
itself reports no error — but skips the remaining closes and the flag
reset, returning the state unchanged; a throwing context close likewise
leaves context, browser and flag untouched (only the already-closed page
handle is cleared). -/
theorem cleanup_behavior :
    (∀ st : PWState,
      (∀ p, st.page = some p → p.closeThrows = false) →
      (∀ c, st.context = some c → c.closeThrows = false) →
      (∀ b, st.browser = some b → b.closeThrows = false) →
      cleanupPW st = ⟨none, none, none, false⟩)
    ∧ (∀ (st : PWState) (p : StrudelPage), st.page = some p →
        p.closeThrows = true → cleanupPW st = st)
    ∧ (∀ (st : PWState) (c : Handle),
        (∀ p, st.page = some p → p.closeThrows = false) →
        st.context = some c → c.closeThrows = true →
        cleanupPW st = { st with page := none }) := by
  refine ⟨?_, ?_, ?_⟩
  · rintro ⟨b, c, p, init⟩ h1 h2 h3
    cases p with
    | none => exact cleanupContextStep_ok ⟨b, c, none, init⟩ h2 h3
    | some pp =>
      show (if pp.closeThrows then (⟨b, c, some pp, init⟩ : PWState)
            else cleanupContextStep ⟨b, c, none, init⟩) = _
      rw [h1 pp rfl, if_neg Bool.false_ne_true]
      exact cleanupContextStep_ok ⟨b, c, none, init⟩ h2 h3
  · rintro ⟨b, c, p, init⟩ pp hpage hthrow
    have hp : p = some pp := hpage
    subst hp
    show (if pp.closeThrows then (⟨b, c, some pp, init⟩ : PWState)
          else cleanupContextStep ⟨b, c, none, init⟩) = _
    rw [hthrow, if_pos rfl]
  · rintro ⟨b, c, p, init⟩ cc h1 hctx hthrow
    have hc : c = some cc := hctx
    subst hc
    have hctxstep : cleanupContextStep (⟨b, some cc, none, init⟩ : PWState) =
        ⟨b, some cc, none, init⟩ := by
      show (if cc.closeThrows then (⟨b, some cc, none, init⟩ : PWState)
            else cleanupBrowserStep ⟨b, none, none, init⟩) = _
      rw [hthrow, if_pos rfl]
    cases p with
    | none => exact hctxstep
    | some pp =>
      show (if pp.closeThrows then (⟨b, some cc, some pp, init⟩ : PWState)
            else cleanupContextStep ⟨b, some cc, none, init⟩) = _
      rw [h1 pp rfl, if_neg Bool.false_ne_true]
      exact hctxstep

/-- A context handle whose close throws, for the C8 witness. -/
def pwCtxBoom : PWState :=
  { browser := some ⟨false⟩, context := some ⟨true⟩,
    page := some pageFull, isInitialized := true }

theorem cleanup_behavior_witness :
    cleanupPW pwReady = ⟨none, none, none, false⟩
    ∧ cleanupPW pwCloseBoom = pwCloseBoom
    ∧ cleanupPW pwCtxBoom = { pwCtxBoom with page := none } :=
  ⟨cleanup_behavior.1 pwReady (by decide) (by decide) (by decide),
   cleanup_behavior.2.1 pwCloseBoom pageCloseBoom (by decide) (by decide),
   cleanup_behavior.2.2 pwCtxBoom ⟨true⟩ (by decide) (by decide) (by decide)⟩

/-- C9 counterexample: with an explicitly supplied candidate list `/x`
(no environment override, pid 5) the code probes the explicit candidate
and the pid-derived paths only — the well-known address
`/tmp/nvim-socket` is REPLACED by the explicit candidates rather than
probed after them, and a temp-directory scan contributes nothing because
none exists in the code — so the probed list differs from the claim's
precedence list. -/
theorem candidate_order_cex :
    uniqueSockets ["/x"] none 5 = ["/x", "/tmp/nvim-5", "/tmp/nvimsocket-5"]
    ∧ claimedCandidateOrder ["/x"] none 5 [] =
        ["/x", "/tmp/nvim-socket", "/tmp/nvim-5", "/tmp/nvimsocket-5"]
    ∧ uniqueSockets ["/x"] none 5 ≠ claimedCandidateOrder ["/x"] none 5 []
    ∧ claimedCandidateOrder ["/x"] none 5 ["/tmp/osc-7777"] ≠
        uniqueSockets ["/x"] none 5 := by decide

/-- C9 (amended): per discovered instance the code probes, in order, the
caller-supplied preferred sockets (the well-known defaults only when the
caller supplies none — explicit candidates replace rather than precede
them), then the instance address (the environment override when set and
nonempty, else the pid-derived default), then the two pid-derived paths,
then the environment override again; falsy entries are dropped, and the
list is de-duplicated keeping each address's first — highest-priority —
occurrence (it is a nodup sublist of the raw probe order with the same
members); no temp-directory scan contributes candidates. -/
theorem candidate_list_dedup_order (preferred : List String)
    (envAddr : Option String) (pid : Nat) :
    (uniqueSockets preferred envAddr pid).Nodup
    ∧ (uniqueSockets preferred envAddr pid).Sublist
        (socketsToTry preferred (jsOrStr envAddr ("/tmp/nvim-" ++ toString pid))
          pid envAddr)
    ∧ (∀ s, s ∈ uniqueSockets preferred envAddr pid ↔
        s ∈ socketsToTry preferred (jsOrStr envAddr ("/tmp/nvim-" ++ toString pid))
          pid envAddr)
    ∧ uniqueSockets defaultPreferredSockets (some "/env/sock") 7 =
        ["/tmp/nvim-socket", "/tmp/nvim", "/env/sock", "/tmp/nvim-7",
         "/tmp/nvimsocket-7"]
    ∧ uniqueSockets defaultPreferredSockets none 7 =
        ["/tmp/nvim-socket", "/tmp/nvim", "/tmp/nvim-7", "/tmp/nvimsocket-7"] := by
  refine ⟨nodup_dedupAux [] _, dedupAux_sublist [] _, ?_, by decide, by decide⟩
  intro s
  simpa using mem_dedupAux []
    (socketsToTry preferred (jsOrStr envAddr ("/tmp/nvim-" ++ toString pid))
      pid envAddr) s

/-- The two buffers of the overlapping-scan schedule: scan 1 sees
`a.strdl`, scan 2 sees `b.strdl`. -/
def bufA : NvimBuffer := ⟨1, some "a.strdl", some ["x"], some true⟩

def bufB : NvimBuffer := ⟨2, some "b.strdl", some ["y"], some true⟩

def upsertA : IndexOp :=
  IndexOp.upsert (bufferKey "/work" (bufferEntryData bufA))
    (bufferFileInfo "/work" (bufferEntryData bufA) 0)

def upsertB : IndexOp :=
  IndexOp.upsert (bufferKey "/work" (bufferEntryData bufB))
    (bufferFileInfo "/work" (bufferEntryData bufB) 1)

/-- The schedule the cooperative scheduler can produce for two overlapping
refreshes (awaited peer reads suspend the scan between every two index
operations, and the refresh handler holds no in-flight flag): scan 1's
clear, scan 2's clear, scan 1's upsert, scan 2's upsert. -/
def interleavedRefresh : List IndexOp :=
  [IndexOp.clearAll, IndexOp.clearAll, upsertA, upsertB]

/-- C1: the refresh handler has no per-operation in-flight guard, so the
clear/upsert sequences of two overlapping scans CAN interleave.  A scan
is faithfully the application of its `scanOps` operation list (first
conjunct); the exhibited schedule is a genuine interleaving of the two
scans' operation lists, and applying it leaves the index with 2 entries —
the SUM of the two scans' buffer counts (1 each), not the second scan's
count — contradicting the claimed guarantee. -/
theorem refresh_overlap_interleaving_sum :
    (∀ (fm : FileManager) (now : Nat) (bufs : List NvimBuffer),
      applyOps fm (scanOps fm.workingDir now bufs) =
        (scanNeovimBuffers true (some bufs) fm now).fm)
    ∧ Interleaves (scanOps "/work" 0 [bufA]) (scanOps "/work" 1 [bufB])
        interleavedRefresh
    ∧ getFileCount (applyOps fmWork interleavedRefresh) = 2
    ∧ (scanNeovimBuffers true (some [bufA]) fmWork 0).count = 1
    ∧ (scanNeovimBuffers true (some [bufB]) fmWork 1).count = 1 := by
  refine ⟨?_, ?_, by decide, by decide, by decide⟩
  · intro fm now bufs
    rw [scanNeovimBuffers_ok]
    show List.foldl applyOp fm
      (IndexOp.clearAll ::
        (bufs.filter keepBuffer).map
          (fun b => IndexOp.upsert (bufferKey fm.workingDir (bufferEntryData b))
            (bufferFileInfo fm.workingDir (bufferEntryData b) now))) = _
    rw [List.foldl_cons]
    exact (foldl_addBufferFile_eq_applyOps now (bufs.filter keepBuffer)
      (clearFiles fm) rfl).symm
  · have hA : scanOps "/work" 0 [bufA] = [IndexOp.clearAll, upsertA] := by decide
    have hB : scanOps "/work" 1 [bufB] = [IndexOp.clearAll, upsertB] := by decide
    rw [hA, hB]
    show Interleaves [IndexOp.clearAll, upsertA] [IndexOp.clearAll, upsertB]
      [IndexOp.clearAll, IndexOp.clearAll, upsertA, upsertB]
    exact .left IndexOp.clearAll (.right IndexOp.clearAll
      (.left upsertA (.right upsertB .nil)))

end StrudelZedro
